import Mathlib

/-
Shallow embedding of the POP3 mail forwarder (src/mail_forwarder.py).

Modelling conventions:
* timestamps are integers (seconds); datetime.now() is an explicit argument;
* the sqlite table retrieved_mails is a list of rows in insertion order,
  with INSERT OR REPLACE modelled as delete-same-key-then-append;
* network collaborators are oracles passed as arguments: the parsed value of
  a Date header (email.utils.parsedate_to_datetime, exceptions mapped to
  none), the boolean outcome of one SMTP submission, and the outcome of the
  POP3 session opened by the retention sweeper (none when connect,
  authenticate or the UIDL listing raises);
* the committed file does not parse: lines 692-714 of _fetch_new_mails carry
  an orphan else/except left over from a partial refactor (IndentationError
  at line 705 on import).  The cutoff filter below follows the unique
  consistent re-indentation of the committed tokens, whose behaviour is also
  pinned by the repository test suite (test_fetch_new_mails_with_start_date_
  filter_old / filter_new / no_date_header / invalid_date_header).
-/

namespace MailForwarder

/-- One row of the retrieved_mails table (ledger), schema from
_init_database: uidl PRIMARY KEY, forwarded_at, from_addr, subject,
forward_success. -/
structure LedgerEntry where
  uidl : String
  forwarded_at : Int
  from_addr : String
  subject : String
  forward_success : Bool
deriving Repr, DecidableEq

/-- The retrieved_mails table, rows in insertion order. -/
abbrev Ledger := List LedgerEntry

/-- SELECT uidl FROM retrieved_mails (every row, whatever its
forward_success flag) as computed by _get_retrieved_uidls. -/
def get_retrieved_uidls (db : Ledger) : List String :=
  db.map (fun e => e.uidl)

/-- Membership of a uidl in the ledger key set. -/
def known (db : Ledger) (u : String) : Bool :=
  db.any (fun e => e.uidl = u)

/-- _save_retrieved_mail: INSERT OR REPLACE INTO retrieved_mails, with
forwarded_at = datetime.now() passed explicitly.  The conflicting row, if
any, is removed and the fresh row appended. -/
def save_retrieved_mail (db : Ledger) (uidl from_addr subject : String)
    (success : Bool) (now : Int) : Ledger :=
  db.filter (fun e => e.uidl ≠ uidl) ++ [⟨uidl, now, from_addr, subject, success⟩]

/-- A message as seen through one POP3 session: uidl and sequence number
from the UIDL listing, raw bytes from retr, sender and subject parsed from
the bytes, and the raw Date header when present. -/
structure Mail where
  uidl : String
  msg_num : Nat
  mail_data : String
  from_addr : String
  subject : String
  date_hdr : Option String
deriving Repr, DecidableEq

/-- The mail_date local of _fetch_new_mails: None when the Date header is
absent, otherwise the result of parsedate_to_datetime with any exception
mapped to none (the surrounding try/except pass). -/
def mail_date (parse_hdr : String → Option Int) (m : Mail) : Option Int :=
  match m.date_hdr with
  | none => none
  | some s => parse_hdr s

/-- The new-message determination of _fetch_new_mails lines 654-667: the
mails whose uidl is not among the ledger keys (set(server_uidls) minus
retrieved_uidls); exactly these are fetched with retr. -/
def new_server_mails (server : List Mail) (db : Ledger) : List Mail :=
  server.filter (fun m => !(known db m.uidl))

/-- The uidls treated as new (new_uidls local of _fetch_new_mails). -/
def new_uidls (server : List Mail) (db : Ledger) : List String :=
  (new_server_mails server db).map (fun m => m.uidl)

/-- The cutoff decision of the filter block: skip exactly when a start date
is configured, the date parsed, and the date is strictly earlier. -/
def should_forward (start_date : Option Int) (md : Option Int) : Bool :=
  match start_date, md with
  | some sd, some d => if d < sd then false else true
  | _, _ => true

/-- State threaded through the per-message loop of _fetch_new_mails:
the new_mails accumulator, the ledger (mutated by the skip branch), and
skipped_count. -/
structure FetchState where
  new_mails : List Mail
  db : Ledger
  skipped : Nat
deriving Repr, DecidableEq

/-- One iteration of the _fetch_new_mails loop body for a new uidl: apply
the cutoff filter; on skip, record the message with forward_success=False;
otherwise append it to new_mails. -/
def fetch_step (parse_hdr : String → Option Int) (start_date : Option Int)
    (now : Int) (st : FetchState) (m : Mail) : FetchState :=
  if should_forward start_date (mail_date parse_hdr m) then
    { st with new_mails := st.new_mails ++ [m] }
  else
    { new_mails := st.new_mails,
      db := save_retrieved_mail st.db m.uidl m.from_addr m.subject false now,
      skipped := st.skipped + 1 }

/-- _fetch_new_mails: list the server, drop the already-known uidls, fetch
and filter each remaining message (lines 654-717, filter block
re-indented as described in the file header). -/
def fetch_new_mails (parse_hdr : String → Option Int) (start_date : Option Int)
    (now : Int) (server : List Mail) (db : Ledger) : FetchState :=
  (new_server_mails server db).foldl (fetch_step parse_hdr start_date now)
    ⟨[], db, 0⟩

/-- State of the relay loop: the ledger plus the success and failure
counters of process_once. -/
structure RelayState where
  db : Ledger
  forwarded_count : Nat
  failed_count : Nat
deriving Repr, DecidableEq

/-- One iteration of the relay loop (process_once lines 853-870 and
process_daemon lines 942-944): submit via _forward_mail, then immediately
record the outcome with _save_retrieved_mail before the next message. -/
def relay_step (forward_ok : Mail → Bool) (now : Int) (st : RelayState)
    (m : Mail) : RelayState :=
  let success := forward_ok m
  { db := save_retrieved_mail st.db m.uidl m.from_addr m.subject success now,
    forwarded_count := st.forwarded_count + (if success then 1 else 0),
    failed_count := st.failed_count + (if success then 0 else 1) }

/-- The relay loop over a batch of new mails. -/
def relay_loop (forward_ok : Mail → Bool) (now : Int) (mails : List Mail)
    (db : Ledger) : RelayState :=
  mails.foldl (relay_step forward_ok now) ⟨db, 0, 0⟩

/-- One reconciliation invocation (fetch then relay), the engine shared by
process_once and the process_daemon cycle body. -/
def reconcile (parse_hdr : String → Option Int) (forward_ok : Mail → Bool)
    (start_date : Option Int) (now : Int) (server : List Mail) (db : Ledger) :
    RelayState :=
  let fr := fetch_new_mails parse_hdr start_date now server db
  relay_loop forward_ok now fr.new_mails fr.db

/-- Rows selected for deletion by _delete_old_mails: forward_success = 1
AND forwarded_at < now - timedelta(days=retention_days), with the window
converted to seconds. -/
def mails_to_delete (retention_days : Int) (now : Int) (db : Ledger) :
    List LedgerEntry :=
  db.filter (fun e =>
    e.forward_success && decide (e.forwarded_at < now - retention_days * 86400))

/-- Result of one sweeper run: the ledger afterwards, the sequence numbers
deleted from the mailbox, and whether a POP3 session was opened. -/
structure SweepResult where
  db : Ledger
  deleted_msg_nums : List Nat
  session_opened : Bool
deriving Repr, DecidableEq

/-- Dictionary lookup server_uidls[uidl] built from the sweeper UIDL
listing. -/
def uidl_msg_num (server_uidls : List (String × Nat)) (u : String) :
    Option Nat :=
  (server_uidls.find? (fun p => p.1 = u)).map (fun p => p.2)

/-- _delete_old_mails.  retention_days = 0 skips the sweep before touching
anything; an empty selection returns before opening a session; a session
argument of none models connect, authenticate or the UIDL listing raising,
in which case the except branch runs and conn.close() without commit rolls
the row deletions back, leaving the ledger unchanged.  On a successful
listing each selected row is deleted from the mailbox when still present
and from the ledger regardless. -/
def delete_old_mails (retention_days : Int) (now : Int) (db : Ledger)
    (session : Option (List (String × Nat))) : SweepResult :=
  if retention_days = 0 then ⟨db, [], false⟩
  else
    let toDel := mails_to_delete retention_days now db
    if toDel = [] then ⟨db, [], false⟩
    else
      match session with
      | none => ⟨db, [], true⟩
      | some server_uidls =>
        ⟨db.filter (fun e => !(toDel.any (fun d => d.uidl = e.uidl))),
         toDel.filterMap (fun d => uidl_msg_num server_uidls d.uidl),
         true⟩

/-- Result of one process_once call: whether the 5-tuple unpacking of the
4-tuples returned by _fetch_new_mails raised ValueError, the ledger when
the call returns or raises, and the reported (new, forwarded) counts (none
when the summary is never reached). -/
structure OnceResult where
  raised : Bool
  db : Ledger
  reported : Option (Nat × Nat)
deriving Repr, DecidableEq

/-- process_once as committed: sweep, fetch, then the relay loop written as
for uidl, mail_data, from_addr, subject, mail_date in new_mails, although
_fetch_new_mails appends 4-tuples (line 717).  With a non-empty batch the
first unpacking raises ValueError before any submit, so no relay happens
and no summary is reported; with an empty batch the loop is skipped and the
summary reports zero. -/
def process_once (parse_hdr : String → Option Int)
    ( _forward_ok : Mail → Bool) (start_date : Option Int)
    (retention_days now : Int) (session : Option (List (String × Nat)))
    (server : List Mail) (db : Ledger) : OnceResult :=
  let db1 := (delete_old_mails retention_days now db session).db
  let fr := fetch_new_mails parse_hdr start_date now server db1
  match fr.new_mails with
  | [] => ⟨false, fr.db, some (0, 0)⟩
  | _ :: _ => ⟨true, fr.db, none⟩

/-- Inputs of one daemon cycle that vary between polls: the mailbox
contents, the sweeper session outcome, and the clock. -/
structure CycleInput where
  server : List Mail
  session : Option (List (String × Nat))
  now : Int
deriving Repr, DecidableEq

/-- One iteration of the process_daemon loop: sweep, fetch, relay (the
daemon loop unpacks the 4-tuples correctly, lines 936-944). -/
def daemon_cycle (parse_hdr : String → Option Int) (forward_ok : Mail → Bool)
    (start_date : Option Int) (retention_days : Int) (db : Ledger)
    (c : CycleInput) : RelayState :=
  let db1 := (delete_old_mails retention_days c.now db c.session).db
  reconcile parse_hdr forward_ok start_date c.now c.server db1

/-- Ledger evolution over a sequence of daemon cycles. -/
def run_cycles (parse_hdr : String → Option Int) (forward_ok : Mail → Bool)
    (start_date : Option Int) (retention_days : Int) (db : Ledger) :
    List CycleInput → Ledger
  | [] => db
  | c :: cs =>
      run_cycles parse_hdr forward_ok start_date retention_days
        (daemon_cycle parse_hdr forward_ok start_date retention_days db c).db cs

/-- The uidls a cycle starting from a given ledger selects for relay. -/
def cycle_relayed (parse_hdr : String → Option Int) (start_date : Option Int)
    (retention_days : Int) (db : Ledger) (c : CycleInput) : List String :=
  ((fetch_new_mails parse_hdr start_date c.now c.server
      (delete_old_mails retention_days c.now db c.session).db).new_mails).map
    (fun m => m.uidl)

/-- The ledger evolution of the relay loop in isolation: one
save_retrieved_mail per submitted message, in batch order. -/
def relay_db (forward_ok : Mail → Bool) (now : Int) :
    List Mail → Ledger → Ledger
  | [], db => db
  | m :: ms, db =>
      relay_db forward_ok now ms
        (save_retrieved_mail db m.uidl m.from_addr m.subject (forward_ok m) now)

/-- The ledger evolution of the _fetch_new_mails loop in isolation: one
save with forward_success=False per message skipped by the cutoff. -/
def skip_db (parse_hdr : String → Option Int) (start_date : Option Int)
    (now : Int) : List Mail → Ledger → Ledger
  | [], db => db
  | m :: ms, db =>
      skip_db parse_hdr start_date now ms
        (if should_forward start_date (mail_date parse_hdr m) then db
         else save_retrieved_mail db m.uidl m.from_addr m.subject false now)

/-- The ledger after a poll whose relay loop was interrupted right after
message k of the batch: the first k outcomes are recorded, the rest of the
batch was never submitted. -/
def interrupted_ledger (p : String → Option Int) (f : Mail → Bool)
    (sd : Option Int) (now : Int) (server : List Mail) (db : Ledger)
    (k : Nat) : Ledger :=
  (relay_loop f now ((fetch_new_mails p sd now server db).new_mails.take k)
    (fetch_new_mails p sd now server db).db).db

/-- Concrete message used by the closed witness instances. -/
def u1mail : Mail :=
  ⟨ "u1" , 1, "raw1" , "alice@example.jp" , "S1" , none⟩

/-- Second concrete message used by the closed witness instances. -/
def u2mail : Mail :=
  ⟨ "u2" , 2, "raw2" , "bob@example.jp" , "S2" , none⟩

/-- Concrete dated message used by the cutoff witness instances. -/
def d1mail : Mail :=
  ⟨ "d1" , 1, "raw1" , "alice@example.jp" , "S1" , some "hdr1"⟩

/-- Second concrete dated message used by the cutoff witness instances. -/
def d2mail : Mail :=
  ⟨ "d2" , 2, "raw2" , "bob@example.jp" , "S2" , some "hdr2"⟩

/-! ### Basic ledger lemmas -/

theorem known_iff (db : Ledger) (v : String) :
    known db v = true ↔ ∃ e ∈ db, e.uidl = v := by
  simp [known, List.any_eq_true]

theorem known_iff_mem (db : Ledger) (v : String) :
    known db v = true ↔ v ∈ get_retrieved_uidls db := by
  rw [known_iff, get_retrieved_uidls]
  constructor
  · rintro ⟨e, he, rfl⟩
    exact List.mem_map_of_mem _ he
  · intro hv
    rcases List.mem_map.mp hv with ⟨e, he, rfl⟩
    exact ⟨e, he, rfl⟩

theorem mem_save_self (db : Ledger) (u fa s : String) (succ : Bool) (now : Int) :
    (⟨u, now, fa, s, succ⟩ : LedgerEntry) ∈ save_retrieved_mail db u fa s succ now := by
  simp [save_retrieved_mail]

theorem mem_save_of_ne {db : Ledger} {e : LedgerEntry} (he : e ∈ db) {u : String}
    (hne : e.uidl ≠ u) (fa s : String) (succ : Bool) (now : Int) :
    e ∈ save_retrieved_mail db u fa s succ now := by
  simp [save_retrieved_mail, List.mem_filter, he, hne]

theorem known_save (db : Ledger) (u fa s : String) (succ : Bool) (now : Int)
    (v : String) :
    known (save_retrieved_mail db u fa s succ now) v = true ↔
      v = u ∨ known db v = true := by
  simp only [known_iff, save_retrieved_mail, List.mem_append, List.mem_filter,
    List.mem_singleton]
  constructor
  · rintro ⟨e, he | rfl, rfl⟩
    · exact Or.inr ⟨e, he.1, rfl⟩
    · exact Or.inl rfl
  · rintro (rfl | ⟨e, he, rfl⟩)
    · exact ⟨⟨v, now, fa, s, succ⟩, Or.inr rfl, rfl⟩
    · by_cases h : e.uidl = u
      · exact ⟨⟨u, now, fa, s, succ⟩, Or.inr rfl, h.symm⟩
      · exact ⟨e, Or.inl ⟨he, by simpa using h⟩, rfl⟩

theorem nodup_save {db : Ledger} (h : (db.map LedgerEntry.uidl).Nodup)
    (u fa s : String) (succ : Bool) (now : Int) :
    ((save_retrieved_mail db u fa s succ now).map LedgerEntry.uidl).Nodup := by
  simp only [save_retrieved_mail, List.map_append, List.map_cons, List.map_nil]
  refine List.Nodup.append ?_ (List.nodup_singleton u) ?_
  · exact h.sublist (List.Sublist.map _ (List.filter_sublist db))
  · intro v hv hv1
    simp only [List.mem_singleton] at hv1
    rcases List.mem_map.mp hv with ⟨e, he, heq⟩
    have hne : e.uidl ≠ u := by simpa using (List.mem_filter.mp he).2
    exact hne (heq.trans hv1)

theorem key_inj {db : Ledger} (h : (db.map LedgerEntry.uidl).Nodup)
    {e d : LedgerEntry} (he : e ∈ db) (hd : d ∈ db) (hu : e.uidl = d.uidl) :
    e = d :=
  List.inj_on_of_nodup_map h he hd hu

/-! ### The relay loop as a fold of ledger writes -/

theorem relay_loop_db (f : Mail → Bool) (now : Int) :
    ∀ (mails : List Mail) (st : RelayState),
      (mails.foldl (relay_step f now) st).db = relay_db f now mails st.db := by
  intro mails
  induction mails with
  | nil => intro st; rfl
  | cons m ms ih => intro st; simpa [relay_step, relay_db] using ih _

theorem known_relay_db (f : Mail → Bool) (now : Int) (v : String) :
    ∀ (mails : List Mail) (db : Ledger),
      known (relay_db f now mails db) v = true ↔
        v ∈ mails.map Mail.uidl ∨ known db v = true := by
  intro mails
  induction mails with
  | nil => intro db; simp [relay_db]
  | cons m ms ih =>
      intro db
      simp only [relay_db, ih, List.map_cons, List.mem_cons, known_save]
      tauto

theorem mem_relay_db_of_not_mem (f : Mail → Bool) (now : Int) {e : LedgerEntry} :
    ∀ {mails : List Mail} {db : Ledger}, e ∈ db → e.uidl ∉ mails.map Mail.uidl →
      e ∈ relay_db f now mails db := by
  intro mails
  induction mails with
  | nil => intro db he _; exact he
  | cons m ms ih =>
      intro db he hn
      simp only [List.map_cons, List.mem_cons] at hn
      push_neg at hn
      exact ih (mem_save_of_ne he hn.1 _ _ _ _) hn.2

theorem entry_mem_relay_db (f : Mail → Bool) (now : Int) {m : Mail} :
    ∀ {mails : List Mail} {db : Ledger}, m ∈ mails →
      (mails.map Mail.uidl).Nodup →
      (⟨m.uidl, now, m.from_addr, m.subject, f m⟩ : LedgerEntry) ∈
        relay_db f now mails db := by
  intro mails
  induction mails with
  | nil => intro db h; exact absurd h (List.not_mem_nil m)
  | cons m0 ms ih =>
      intro db hm hnd
      simp only [List.map_cons, List.nodup_cons] at hnd
      rcases List.mem_cons.mp hm with rfl | hm
      · rw [relay_db]
        exact mem_relay_db_of_not_mem f now (mem_save_self _ _ _ _ _ _) hnd.1
      · rw [relay_db]
        exact ih hm hnd.2

theorem nodup_relay_db (f : Mail → Bool) (now : Int) :
    ∀ (mails : List Mail) {db : Ledger}, (db.map LedgerEntry.uidl).Nodup →
      ((relay_db f now mails db).map LedgerEntry.uidl).Nodup := by
  intro mails
  induction mails with
  | nil => intro db h; exact h
  | cons m ms ih => intro db h; exact ih (nodup_save h _ _ _ _ _)

/-! ### The fetch loop as new-mail selection plus skip writes -/

theorem fetch_fold_new_mails (p : String → Option Int) (sd : Option Int)
    (now : Int) :
    ∀ (l : List Mail) (st : FetchState),
      (l.foldl (fetch_step p sd now) st).new_mails =
        st.new_mails ++ l.filter (fun m => should_forward sd (mail_date p m)) := by
  intro l
  induction l with
  | nil => intro st; simp
  | cons m ms ih =>
      intro st
      by_cases h : should_forward sd (mail_date p m)
      · simp [fetch_step, h, ih, List.filter_cons]
      · simp [fetch_step, h, ih, List.filter_cons]

theorem fetch_fold_db (p : String → Option Int) (sd : Option Int) (now : Int) :
    ∀ (l : List Mail) (st : FetchState),
      (l.foldl (fetch_step p sd now) st).db = skip_db p sd now l st.db := by
  intro l
  induction l with
  | nil => intro st; rfl
  | cons m ms ih =>
      intro st
      by_cases h : should_forward sd (mail_date p m)
      · simp [fetch_step, h, ih, skip_db]
      · simp [fetch_step, h, ih, skip_db]

theorem fetch_new_mails_eq (p : String → Option Int) (sd : Option Int)
    (now : Int) (server : List Mail) (db : Ledger) :
    (fetch_new_mails p sd now server db).new_mails =
      (new_server_mails server db).filter
        (fun m => should_forward sd (mail_date p m)) := by
  simp [fetch_new_mails, fetch_fold_new_mails]

theorem fetch_db_eq (p : String → Option Int) (sd : Option Int) (now : Int)
    (server : List Mail) (db : Ledger) :
    (fetch_new_mails p sd now server db).db =
      skip_db p sd now (new_server_mails server db) db := by
  simp [fetch_new_mails, fetch_fold_db]

theorem known_skip_db (p : String → Option Int) (sd : Option Int) (now : Int)
    (v : String) :
    ∀ (l : List Mail) (db : Ledger),
      known (skip_db p sd now l db) v = true ↔
        (∃ m ∈ l, should_forward sd (mail_date p m) = false ∧ m.uidl = v) ∨
          known db v = true := by
  intro l
  induction l with
  | nil => intro db; simp [skip_db]
  | cons m ms ih =>
      intro db
      by_cases h : should_forward sd (mail_date p m)
      · simp only [skip_db, h, if_pos, ih, List.mem_cons]
        constructor
        · rintro (⟨m2, hm2, hsf, rfl⟩ | hk)
          · exact Or.inl ⟨m2, Or.inr hm2, hsf, rfl⟩
          · exact Or.inr hk
        · rintro (⟨m2, rfl | hm2, hsf, rfl⟩ | hk)
          · exact absurd h (by simp [hsf])
          · exact Or.inl ⟨m2, hm2, hsf, rfl⟩
          · exact Or.inr hk
      · simp only [skip_db, h, if_neg, ih, known_save, List.mem_cons,
          Bool.not_eq_true]
        constructor
        · rintro (⟨m2, hm2, hsf, rfl⟩ | (rfl | hk))
          · exact Or.inl ⟨m2, Or.inr hm2, hsf, rfl⟩
          · exact Or.inl ⟨m, Or.inl rfl, Bool.not_eq_true _ ▸ h, rfl⟩
          · exact Or.inr hk
        · rintro (⟨m2, rfl | hm2, hsf, rfl⟩ | hk)
          · exact Or.inr (Or.inl rfl)
          · exact Or.inl ⟨m2, hm2, hsf, rfl⟩
          · exact Or.inr (Or.inr hk)

theorem mem_skip_db_of_not_mem (p : String → Option Int) (sd : Option Int)
    (now : Int) {e : LedgerEntry} :
    ∀ {l : List Mail} {db : Ledger}, e ∈ db → e.uidl ∉ l.map Mail.uidl →
      e ∈ skip_db p sd now l db := by
  intro l
  induction l with
  | nil => intro db he _; exact he
  | cons m ms ih =>
      intro db he hn
      simp only [List.map_cons, List.mem_cons] at hn
      push_neg at hn
      by_cases h : should_forward sd (mail_date p m)
      · simpa [skip_db, h] using ih he hn.2
      · simpa [skip_db, h] using ih (mem_save_of_ne he hn.1 _ _ _ _) hn.2

theorem entry_mem_skip_db (p : String → Option Int) (sd : Option Int)
    (now : Int) {m : Mail} :
    ∀ {l : List Mail} {db : Ledger}, m ∈ l →
      should_forward sd (mail_date p m) = false →
      (l.map Mail.uidl).Nodup →
      (⟨m.uidl, now, m.from_addr, m.subject, false⟩ : LedgerEntry) ∈
        skip_db p sd now l db := by
  intro l
  induction l with
  | nil => intro db h; exact absurd h (List.not_mem_nil m)
  | cons m0 ms ih =>
      intro db hm hsf hnd
      simp only [List.map_cons, List.nodup_cons] at hnd
      rcases List.mem_cons.mp hm with rfl | hm
      · simp only [skip_db, hsf, Bool.false_eq_true, if_neg, if_false]
        exact mem_skip_db_of_not_mem p sd now (mem_save_self _ _ _ _ _ _) hnd.1
      · by_cases h : should_forward sd (mail_date p m0)
        · simpa [skip_db, h] using ih hm hsf hnd.2
        · simpa [skip_db, h] using ih hm hsf hnd.2

theorem nodup_skip_db (p : String → Option Int) (sd : Option Int) (now : Int) :
    ∀ (l : List Mail) {db : Ledger}, (db.map LedgerEntry.uidl).Nodup →
      ((skip_db p sd now l db).map LedgerEntry.uidl).Nodup := by
  intro l
  induction l with
  | nil => intro db h; exact h
  | cons m ms ih =>
      intro db h
      by_cases hm : should_forward sd (mail_date p m)
      · simpa [skip_db, hm] using ih h
      · simpa [skip_db, hm] using ih (nodup_save h _ _ _ _ _)

/-! ### New-set lemmas -/

theorem mem_new_server_mails (server : List Mail) (db : Ledger) (m : Mail) :
    m ∈ new_server_mails server db ↔ m ∈ server ∧ known db m.uidl = false := by
  simp [new_server_mails, List.mem_filter]

theorem not_mem_new_uidls_of_known {db : Ledger} {u : String}
    (h : known db u = true) (server : List Mail) :
    u ∉ new_uidls server db := by
  intro hu
  rcases List.mem_map.mp hu with ⟨m, hm, rfl⟩
  rcases (mem_new_server_mails server db m).mp hm with ⟨_, hk⟩
  rw [h] at hk
  cases hk

theorem relay_loop_db_simple (f : Mail → Bool) (now : Int) (mails : List Mail)
    (db : Ledger) : (relay_loop f now mails db).db = relay_db f now mails db :=
  relay_loop_db f now mails ⟨db, 0, 0⟩

theorem nodup_new_server_mails {server : List Mail}
    (h : (server.map Mail.uidl).Nodup) (db : Ledger) :
    ((new_server_mails server db).map Mail.uidl).Nodup :=
  h.sublist (List.Sublist.map _ (List.filter_sublist server))

theorem mail_key_inj {server : List Mail} (h : (server.map Mail.uidl).Nodup)
    {a b : Mail} (ha : a ∈ server) (hb : b ∈ server) (hu : a.uidl = b.uidl) :
    a = b :=
  List.inj_on_of_nodup_map h ha hb hu

theorem reconcile_db_eq (p : String → Option Int) (f : Mail → Bool)
    (sd : Option Int) (now : Int) (server : List Mail) (db : Ledger) :
    (reconcile p f sd now server db).db =
      relay_db f now
        ((new_server_mails server db).filter
          (fun m => should_forward sd (mail_date p m)))
        (skip_db p sd now (new_server_mails server db) db) := by
  show (relay_loop f now _ _).db = _
  rw [relay_loop_db_simple, fetch_new_mails_eq, fetch_db_eq]

theorem known_after_reconcile (p : String → Option Int) (f : Mail → Bool)
    (sd : Option Int) (now : Int) (server : List Mail) (db : Ledger)
    (u : String) (hu : u ∈ server.map Mail.uidl ∨ known db u = true) :
    known (reconcile p f sd now server db).db u = true := by
  rw [reconcile_db_eq, known_relay_db]
  rcases hu with hu | hu
  · rcases List.mem_map.mp hu with ⟨m, hm, rfl⟩
    by_cases hk : known db m.uidl = true
    · exact Or.inr ((known_skip_db _ _ _ _ _ _).mpr (Or.inr hk))
    · have hk0 : known db m.uidl = false := by
        revert hk
        cases known db m.uidl <;> simp
      have hnsm : m ∈ new_server_mails server db :=
        (mem_new_server_mails _ _ _).mpr ⟨hm, hk0⟩
      by_cases hsf : should_forward sd (mail_date p m) = true
      · exact Or.inl (List.mem_map_of_mem _ (List.mem_filter.mpr ⟨hnsm, hsf⟩))
      · have hsf0 : should_forward sd (mail_date p m) = false := by
          revert hsf
          cases should_forward sd (mail_date p m) <;> simp
        exact Or.inr ((known_skip_db _ _ _ _ _ _).mpr
          (Or.inl ⟨m, hnsm, hsf0, rfl⟩))
  · exact Or.inr ((known_skip_db _ _ _ _ _ _).mpr (Or.inr hu))

/-! ### Sweeper lemmas -/

theorem mem_mails_to_delete (w now : Int) (db : Ledger) (e : LedgerEntry) :
    e ∈ mails_to_delete w now db ↔
      e ∈ db ∧ e.forward_success = true ∧ e.forwarded_at < now - w * 86400 := by
  simp [mails_to_delete, List.mem_filter, and_assoc]

theorem sweep_db_cases (w now : Int) (db : Ledger)
    (session : Option (List (String × Nat))) :
    (delete_old_mails w now db session).db = db ∨
    (delete_old_mails w now db session).db =
      db.filter
        (fun e => !((mails_to_delete w now db).any (fun d => d.uidl = e.uidl))) := by
  unfold delete_old_mails
  by_cases hw : w = 0
  · simp [hw]
  · by_cases hemp : mails_to_delete w now db = []
    · simp [hw, hemp]
    · cases session <;> simp [hw, hemp]

theorem sweep_preserves_failed (w now : Int) (db : Ledger)
    (session : Option (List (String × Nat)))
    (hdb : (db.map LedgerEntry.uidl).Nodup) {e : LedgerEntry}
    (he : e ∈ db) (hf : e.forward_success = false) :
    e ∈ (delete_old_mails w now db session).db ∧
    (((delete_old_mails w now db session).db.map LedgerEntry.uidl).Nodup) := by
  rcases sweep_db_cases w now db session with hc | hc
  · rw [hc]
    exact ⟨he, hdb⟩
  · rw [hc]
    constructor
    · refine List.mem_filter.mpr ⟨he, ?_⟩
      simp only [Bool.not_eq_true', List.any_eq_false, decide_eq_false_iff_not]
      intro d hd
      rcases (mem_mails_to_delete w now db d).mp hd with ⟨hddb, hdsucc, _⟩
      intro hdu
      have hdu2 : d.uidl = e.uidl := of_decide_eq_true hdu
      have hde : d = e := key_inj hdb hddb he hdu2
      rw [hde, hf] at hdsucc
      cases hdsucc
    · exact hdb.sublist (List.Sublist.map _ (List.filter_sublist db))

theorem not_mem_new_server_uidls_of_known {db : Ledger} {u : String}
    (h : known db u = true) (server : List Mail) :
    u ∉ (new_server_mails server db).map Mail.uidl :=
  not_mem_new_uidls_of_known h server

/-! ### One daemon cycle preserves a failed ledger row -/

theorem cycle_preserves_failed (p : String → Option Int) (f : Mail → Bool)
    (sd : Option Int) (w : Int) (db : Ledger) (c : CycleInput) (u : String)
    (hdb : (db.map LedgerEntry.uidl).Nodup)
    (h : ∃ e ∈ db, e.uidl = u ∧ e.forward_success = false) :
    (∃ e ∈ (daemon_cycle p f sd w db c).db,
        e.uidl = u ∧ e.forward_success = false) ∧
    (((daemon_cycle p f sd w db c).db.map LedgerEntry.uidl).Nodup) ∧
    u ∉ cycle_relayed p sd w db c := by
  rcases h with ⟨e, he, hu, hf⟩
  obtain ⟨he2, hnd2⟩ := sweep_preserves_failed w c.now db c.session hdb he hf
  have hk2 : known (delete_old_mails w c.now db c.session).db u = true :=
    (known_iff _ _).mpr ⟨e, he2, hu⟩
  have hnotnew : u ∉
      (new_server_mails c.server (delete_old_mails w c.now db c.session).db).map
        Mail.uidl :=
    not_mem_new_server_uidls_of_known hk2 c.server
  refine ⟨?_, ?_, ?_⟩
  · refine ⟨e, ?_, hu, hf⟩
    show e ∈ (reconcile p f sd c.now c.server _).db
    rw [reconcile_db_eq]
    apply mem_relay_db_of_not_mem
    · apply mem_skip_db_of_not_mem
      · exact he2
      · rw [hu]
        exact hnotnew
    · rw [hu]
      intro hmem
      exact hnotnew
        ((List.Sublist.map Mail.uidl (List.filter_sublist _)).subset hmem)
  · show (((reconcile p f sd c.now c.server _).db.map LedgerEntry.uidl)).Nodup
    rw [reconcile_db_eq]
    exact nodup_relay_db f c.now _ (nodup_skip_db p sd c.now _ hnd2)
  · intro hmem
    rcases List.mem_map.mp hmem with ⟨m, hm, hmu⟩
    rw [fetch_new_mails_eq] at hm
    have hm2 : m ∈ new_server_mails c.server
        (delete_old_mails w c.now db c.session).db :=
      (List.filter_sublist _).subset hm
    exact hnotnew (hmu ▸ List.mem_map_of_mem Mail.uidl hm2)

theorem run_cycles_preserves_failed (p : String → Option Int) (f : Mail → Bool)
    (sd : Option Int) (w : Int) (u : String) :
    ∀ (cycles : List CycleInput) (db : Ledger),
      (db.map LedgerEntry.uidl).Nodup →
      (∃ e ∈ db, e.uidl = u ∧ e.forward_success = false) →
      (∃ e ∈ run_cycles p f sd w db cycles,
          e.uidl = u ∧ e.forward_success = false) ∧
      ∀ i (hi : i < cycles.length),
        u ∉ cycle_relayed p sd w (run_cycles p f sd w db (cycles.take i))
          (cycles.get ⟨i, hi⟩) := by
  intro cycles
  induction cycles with
  | nil =>
      intro db _ h
      refine ⟨h, ?_⟩
      intro i hi
      exact absurd hi (Nat.not_lt_zero i)
  | cons c cs ih =>
      intro db hnd h
      obtain ⟨h1, hnd1, hrel⟩ := cycle_preserves_failed p f sd w db c u hnd h
      obtain ⟨ha, hb⟩ := ih _ hnd1 h1
      refine ⟨ha, ?_⟩
      intro i hi
      cases i with
      | zero => simpa [run_cycles] using hrel
      | succ j =>
          have hj : j < cs.length := by simpa using hi
          simpa [run_cycles] using hb j hj

theorem find_key_of_nodup :
    ∀ {l : List (String × Nat)} {u : String} {n : Nat},
      (l.map Prod.fst).Nodup → (u, n) ∈ l →
      l.find? (fun p => p.1 = u) = some (u, n) := by
  intro l
  induction l with
  | nil =>
      intro u n _ h
      cases h
  | cons q ps ih =>
      intro u n hnd hm
      simp only [List.map_cons, List.nodup_cons] at hnd
      rcases List.mem_cons.mp hm with rfl | hm
      · rw [List.find?_cons_of_pos]
        simp
      · have hu : u ∈ ps.map Prod.fst := List.mem_map_of_mem Prod.fst hm
        have hq : q.1 ≠ u := fun h => hnd.1 (h ▸ hu)
        rw [List.find?_cons_of_neg]
        · exact ih hnd.2 hm
        · simpa using hq

/-! ### Claim theorems -/

/-- Claim C2: for every poll, the set of new uidls equals the server uidl
set minus the set of all ledger uidls (entries with forward_success false
count as known exactly like successful ones), and a uidl present both on
the server and in the ledger is excluded from the new set, is never
fetched with retr, and is never part of the relay batch. -/
theorem C2_new_set_is_server_minus_ledger (server : List Mail) (db : Ledger) :
    (∀ v, v ∈ new_uidls server db ↔
        v ∈ server.map Mail.uidl ∧ v ∉ get_retrieved_uidls db) ∧
    ∀ u, u ∈ server.map Mail.uidl → u ∈ get_retrieved_uidls db →
      u ∉ new_uidls server db ∧
      (∀ m ∈ new_server_mails server db, m.uidl ≠ u) ∧
      ∀ (p : String → Option Int) (sd : Option Int) (now : Int),
        ∀ m ∈ (fetch_new_mails p sd now server db).new_mails, m.uidl ≠ u := by
  constructor
  · intro v
    constructor
    · intro hv
      rcases List.mem_map.mp hv with ⟨m, hm, rfl⟩
      rcases (mem_new_server_mails _ _ _).mp hm with ⟨hs, hk⟩
      refine ⟨List.mem_map_of_mem _ hs, ?_⟩
      intro hmem
      rw [← known_iff_mem, hk] at hmem
      cases hmem
    · rintro ⟨hv, hnk⟩
      rcases List.mem_map.mp hv with ⟨m, hm, rfl⟩
      apply List.mem_map_of_mem
      refine (mem_new_server_mails _ _ _).mpr ⟨hm, ?_⟩
      rw [← known_iff_mem] at hnk
      revert hnk
      cases known db m.uidl <;> simp
  · intro u hus hul
    have hk : known db u = true := (known_iff_mem db u).mpr hul
    refine ⟨not_mem_new_uidls_of_known hk server, ?_, ?_⟩
    · intro m hm hmu
      rcases (mem_new_server_mails _ _ _).mp hm with ⟨_, hk0⟩
      rw [hmu, hk] at hk0
      cases hk0
    · intro p sd now m hm hmu
      rw [fetch_new_mails_eq] at hm
      have hm2 : m ∈ new_server_mails server db := (List.filter_sublist _).subset hm
      rcases (mem_new_server_mails _ _ _).mp hm2 with ⟨_, hk0⟩
      rw [hmu, hk] at hk0
      cases hk0

/-- Witness for C2 at a concrete input: the server reports u1, the ledger
already has u1 with success true, and u1 is not treated as new. -/
theorem C2_witness :
    "u1" ∈ [u1mail].map Mail.uidl ∧
    "u1" ∈ get_retrieved_uidls [⟨ "u1" , 900, "alice@example.jp" , "S1" , true⟩] ∧
    "u1" ∉ new_uidls [u1mail] [⟨ "u1" , 900, "alice@example.jp" , "S1" , true⟩] :=
  ⟨by decide, by decide,
    ((C2_new_set_is_server_minus_ledger [u1mail]
        [⟨ "u1" , 900, "alice@example.jp" , "S1" , true⟩]).2
      "u1" (by decide) (by decide)).1⟩

/-- Claim C4: a new message whose Date header is missing, or whose header
fails to parse (the parse oracle yields none), is selected for relay even
when a cutoff is configured; the parse failure is absorbed locally and the
message-level pipeline still returns. -/
theorem C4_fail_open_on_unparsed_date (p : String → Option Int)
    (sd : Option Int) (now : Int) (server : List Mail) (db : Ledger)
    (m : Mail) (hm : m ∈ new_server_mails server db)
    (hd : mail_date p m = none) :
    m ∈ (fetch_new_mails p sd now server db).new_mails := by
  rw [fetch_new_mails_eq]
  refine List.mem_filter.mpr ⟨hm, ?_⟩
  rw [hd]
  cases sd <;> rfl

/-- Witness for C4: a dateless message older than any cutoff is still
selected for relay. -/
theorem C4_witness :
    u1mail ∈ new_server_mails [u1mail] [] ∧
    mail_date (fun _ => none) u1mail = none ∧
    u1mail ∈ (fetch_new_mails (fun _ => none) (some 2000) 1000 [u1mail] []).new_mails :=
  ⟨by decide, by decide,
    C4_fail_open_on_unparsed_date (fun _ => none) (some 2000) 1000 [u1mail] []
      u1mail (by decide) (by decide)⟩

/-- Claim C3 (intended behaviour of the cutoff filter; the committed block
is the syntax slip described in the file header): with a configured cutoff
and a parsed date, a strictly earlier message is not selected for relay
and a ledger row with forward_success false is written for its uidl, while
a message dated at or after the cutoff is selected for relay. -/
theorem C3_cutoff_strict_lower_bound (p : String → Option Int) (sd now : Int)
    (server : List Mail) (db : Ledger)
    (hnd : (server.map Mail.uidl).Nodup) (m : Mail)
    (hm : m ∈ new_server_mails server db) (d : Int)
    (hd : mail_date p m = some d) :
    (d < sd →
      m ∉ (fetch_new_mails p (some sd) now server db).new_mails ∧
      (⟨m.uidl, now, m.from_addr, m.subject, false⟩ : LedgerEntry) ∈
        (fetch_new_mails p (some sd) now server db).db) ∧
    (sd ≤ d → m ∈ (fetch_new_mails p (some sd) now server db).new_mails) := by
  constructor
  · intro hlt
    have hsf : should_forward (some sd) (mail_date p m) = false := by
      rw [hd]
      simp [should_forward, hlt]
    constructor
    · intro hmem
      rw [fetch_new_mails_eq] at hmem
      have := (List.mem_filter.mp hmem).2
      rw [hsf] at this
      cases this
    · rw [fetch_db_eq]
      exact entry_mem_skip_db p (some sd) now hm hsf (nodup_new_server_mails hnd db)
  · intro hge
    have hsf : should_forward (some sd) (mail_date p m) = true := by
      rw [hd]
      simp [should_forward, not_lt_of_ge hge]
    rw [fetch_new_mails_eq]
    exact List.mem_filter.mpr ⟨hm, hsf⟩

/-- Witness for C3: with cutoff 100, a message dated 99 is skipped and
recorded as failed, and a message dated exactly 100 is relayed. -/
theorem C3_witness :
    (d1mail ∈ (fetch_new_mails (fun _ => some 100)
        (some 100) 1000 [d1mail] []).new_mails) ∧
    (d2mail ∉ (fetch_new_mails (fun _ => some 99)
        (some 100) 1000 [d2mail] []).new_mails) ∧
    ((⟨d2mail.uidl, 1000, d2mail.from_addr, d2mail.subject, false⟩ : LedgerEntry) ∈
      (fetch_new_mails (fun _ => some 99) (some 100) 1000 [d2mail] []).db) := by
  have hdate1 : mail_date (fun _ => some 100) d1mail = some 100 := by decide
  have hdate2 : mail_date (fun _ => some 99) d2mail = some 99 := by decide
  refine ⟨?_, ?_, ?_⟩
  · exact (C3_cutoff_strict_lower_bound (fun _ => some 100) 100 1000 [d1mail] []
      (by decide) d1mail (by decide) 100 hdate1).2 (by decide)
  · exact ((C3_cutoff_strict_lower_bound (fun _ => some 99) 100 1000 [d2mail] []
      (by decide) d2mail (by decide) 99 hdate2).1 (by decide)).1
  · exact ((C3_cutoff_strict_lower_bound (fun _ => some 99) 100 1000 [d2mail] []
      (by decide) d2mail (by decide) 99 hdate2).1 (by decide)).2

/-- Claim C7: a retention window of 0 skips the sweep entirely (no session
opened, ledger untouched, nothing deleted); otherwise exactly the rows
with forward_success true and forwarded_at strictly before now minus the
window are selected, a failed row is never selected and always survives
the sweep, and a successful row younger than the window is not
selected. -/
theorem C7_retention_selection (w now : Int) (db : Ledger)
    (session : Option (List (String × Nat)))
    (hnd : (db.map LedgerEntry.uidl).Nodup) :
    (w = 0 → delete_old_mails w now db session = ⟨db, [], false⟩) ∧
    (∀ e, e ∈ mails_to_delete w now db ↔
        e ∈ db ∧ e.forward_success = true ∧
          e.forwarded_at < now - w * 86400) ∧
    (∀ e ∈ db, e.forward_success = false →
        e ∉ mails_to_delete w now db ∧
        e ∈ (delete_old_mails w now db session).db) ∧
    (∀ e ∈ db, now - w * 86400 ≤ e.forwarded_at →
        e ∉ mails_to_delete w now db) := by
  refine ⟨?_, mem_mails_to_delete w now db, ?_, ?_⟩
  · intro hw
    subst hw
    simp [delete_old_mails]
  · intro e he hf
    constructor
    · intro hmem
      rcases (mem_mails_to_delete w now db e).mp hmem with ⟨_, hsucc, _⟩
      rw [hf] at hsucc
      cases hsucc
    · exact (sweep_preserves_failed w now db session hnd he hf).1
  · intro e he hyoung hmem
    rcases (mem_mails_to_delete w now db e).mp hmem with ⟨_, _, hold⟩
    exact absurd hold (not_lt_of_ge hyoung)

/-- Witness for C7: window 30 days, one failed old row and one fresh
successful row; neither is selected, and the sweep leaves the failed row
in place. -/
theorem C7_witness :
    (delete_old_mails 0 0 [⟨ "u1" , -9999999999, "a@b" , "S" , true⟩] none =
      ⟨[⟨ "u1" , -9999999999, "a@b" , "S" , true⟩], [], false⟩) ∧
    (⟨ "u2" , -9999999999, "a@b" , "S" , false⟩ : LedgerEntry) ∉
      mails_to_delete 30 0 [⟨ "u2" , -9999999999, "a@b" , "S" , false⟩] :=
  ⟨(C7_retention_selection 0 0 [⟨ "u1" , -9999999999, "a@b" , "S" , true⟩] none
      (by decide)).1 rfl,
   (((C7_retention_selection 30 0 [⟨ "u2" , -9999999999, "a@b" , "S" , false⟩]
      none (by decide)).2.2.1 ⟨ "u2" , -9999999999, "a@b" , "S" , false⟩
      (by decide) (by decide))).1⟩

/-- Claim C9: when the mailbox session of the sweeper fails (connect,
authenticate or the identifier listing raises), the sweep aborts with the
ledger unchanged, and more generally the ledger can only change in a run
whose identifier listing was obtained. -/
theorem C9_sweep_session_failure_no_removal (w now : Int) (db : Ledger) :
    (delete_old_mails w now db none).db = db ∧
    ∀ session : Option (List (String × Nat)),
      (delete_old_mails w now db session).db ≠ db →
        ∃ l, session = some l := by
  constructor
  · unfold delete_old_mails
    by_cases hw : w = 0
    · simp [hw]
    · by_cases hemp : mails_to_delete w now db = []
      · simp [hw, hemp]
      · simp [hw, hemp]
  · intro session hne
    cases session with
    | none =>
        exact absurd (by
          unfold delete_old_mails
          by_cases hw : w = 0
          · simp [hw]
          · by_cases hemp : mails_to_delete w now db = []
            · simp [hw, hemp]
            · simp [hw, hemp]) hne
    | some l => exact ⟨l, rfl⟩

/-- Witness for C9: a failed session leaves a ledger with one stale
successful row untouched. -/
theorem C9_witness :
    (delete_old_mails 30 0 [⟨ "u1" , -9999999999, "a@b" , "S" , true⟩] none).db =
      [⟨ "u1" , -9999999999, "a@b" , "S" , true⟩] :=
  (C9_sweep_session_failure_no_removal 30 0
    [⟨ "u1" , -9999999999, "a@b" , "S" , true⟩]).1

/-- Claim C10: a negative retention window does not disable the sweep:
the cutoff now minus window lies in the future, so every successful row
whose forwarded_at is at most now, including one written at the current
instant, is selected, is removed from the ledger, and its message is
deleted from the mailbox when still present; the session is opened. -/
theorem C10_negative_window_sweeps_everything (now : Int) (db : Ledger)
    (e : LedgerEntry) (he : e ∈ db) (hsucc : e.forward_success = true)
    (hpast : e.forwarded_at ≤ now) :
    e ∈ mails_to_delete (-1) now db ∧
    ∀ srv : List (String × Nat),
      (delete_old_mails (-1) now db (some srv)).session_opened = true ∧
      e ∉ (delete_old_mails (-1) now db (some srv)).db ∧
      ∀ n : Nat, (srv.map Prod.fst).Nodup → (e.uidl, n) ∈ srv →
        n ∈ (delete_old_mails (-1) now db (some srv)).deleted_msg_nums := by
  have hmem : e ∈ mails_to_delete (-1) now db := by
    refine (mem_mails_to_delete (-1) now db e).mpr ⟨he, hsucc, ?_⟩
    omega
  have hne : mails_to_delete (-1) now db ≠ [] := List.ne_nil_of_mem hmem
  refine ⟨hmem, ?_⟩
  intro srv
  have hunf : delete_old_mails (-1) now db (some srv) =
      ⟨db.filter
        (fun x => !((mails_to_delete (-1) now db).any (fun d => d.uidl = x.uidl))),
       (mails_to_delete (-1) now db).filterMap
         (fun d => uidl_msg_num srv d.uidl),
       true⟩ := by
    unfold delete_old_mails
    simp [hne]
  refine ⟨by rw [hunf], ?_, ?_⟩
  · rw [hunf]
    intro hmem2
    have hnot := (List.mem_filter.mp hmem2).2
    have hb : ((mails_to_delete (-1) now db).any
        (fun d => decide (d.uidl = e.uidl))) = false := by
      simpa using hnot
    rw [List.any_eq_false] at hb
    exact hb e hmem (by simp)
  · intro n hkeys hsrv
    rw [hunf]
    apply List.mem_filterMap.mpr
    refine ⟨e, hmem, ?_⟩
    unfold uidl_msg_num
    rw [find_key_of_nodup hkeys hsrv]
    rfl

/-- Witness for C10: with window -1, a successful row recorded at the
current instant is selected, removed from the ledger, and its message
number 3 deleted from the mailbox. -/
theorem C10_witness :
    ((⟨ "u1" , 500, "a@b" , "S" , true⟩ : LedgerEntry) ∈
      mails_to_delete (-1) 500 [⟨ "u1" , 500, "a@b" , "S" , true⟩]) ∧
    ((⟨ "u1" , 500, "a@b" , "S" , true⟩ : LedgerEntry) ∉
      (delete_old_mails (-1) 500 [⟨ "u1" , 500, "a@b" , "S" , true⟩]
        (some [( "u1" , 3)])).db) ∧
    3 ∈ (delete_old_mails (-1) 500 [⟨ "u1" , 500, "a@b" , "S" , true⟩]
        (some [( "u1" , 3)])).deleted_msg_nums := by
  have h := C10_negative_window_sweeps_everything 500
    [⟨ "u1" , 500, "a@b" , "S" , true⟩] ⟨ "u1" , 500, "a@b" , "S" , true⟩
    (by decide) (by decide) (by decide)
  exact ⟨h.1, (h.2 [( "u1" , 3)]).2.1,
    (h.2 [( "u1" , 3)]).2.2 3 (by decide) (by decide)⟩

/-- Claim C8 (evaluation at the failing input): with server uidls u1 and
u2, an empty ledger, no cutoff and an always-successful relay oracle, the
committed process_once raises ValueError at the first 5-tuple unpacking of
a 4-tuple, relays nothing, reports no counts, and leaves the ledger empty
instead of holding two successful entries. -/
theorem C8_process_once_raises_on_nonempty_batch :
    process_once (fun _ => none) (fun _ => true) none 30 1000 none
      [u1mail, u2mail] [] = ⟨true, [], none⟩ := by decide

/-- Claim C1: in one reconciliation invocation the outcome row of each
relayed message is written before any later message of the batch is
submitted, so a run interrupted right after message k of the batch already
has the first k outcomes in the ledger; a re-run over the same server
state then does not re-relay any recorded message and does relay every
message the interrupted run never reached. -/
theorem C1_outcome_recorded_before_next_submit (p : String → Option Int)
    (f : Mail → Bool) (sd : Option Int) (now now2 : Int)
    (server : List Mail) (db : Ledger)
    (hnd : (server.map Mail.uidl).Nodup) (k : Nat) :
    (∀ m ∈ (fetch_new_mails p sd now server db).new_mails.take k,
        (⟨m.uidl, now, m.from_addr, m.subject, f m⟩ : LedgerEntry) ∈
          interrupted_ledger p f sd now server db k) ∧
    (∀ m ∈ (fetch_new_mails p sd now server db).new_mails.take k,
        m.uidl ∉ new_uidls server (interrupted_ledger p f sd now server db k)) ∧
    (∀ m ∈ (fetch_new_mails p sd now server db).new_mails.drop k,
        m ∈ (fetch_new_mails p sd now2 server
          (interrupted_ledger p f sd now server db k)).new_mails) := by
  have hfr : (fetch_new_mails p sd now server db).new_mails =
      (new_server_mails server db).filter
        (fun m => should_forward sd (mail_date p m)) :=
    fetch_new_mails_eq p sd now server db
  have hnsm_nd := nodup_new_server_mails hnd db
  have hmails_nd :
      (((fetch_new_mails p sd now server db).new_mails).map Mail.uidl).Nodup := by
    rw [hfr]
    exact hnsm_nd.sublist (List.Sublist.map _ (List.filter_sublist _))
  have hil : interrupted_ledger p f sd now server db k =
      relay_db f now ((fetch_new_mails p sd now server db).new_mails.take k)
        (skip_db p sd now (new_server_mails server db) db) := by
    unfold interrupted_ledger
    rw [relay_loop_db_simple, fetch_db_eq]
  have htake_nd :
      ((((fetch_new_mails p sd now server db).new_mails.take k)).map
        Mail.uidl).Nodup :=
    hmails_nd.sublist (List.Sublist.map _ (List.take_sublist _ _))
  refine ⟨?_, ?_, ?_⟩
  · intro m hm
    rw [hil]
    exact entry_mem_relay_db f now hm htake_nd
  · intro m hm
    have hk : known (interrupted_ledger p f sd now server db k) m.uidl = true := by
      rw [hil, known_relay_db]
      exact Or.inl (List.mem_map_of_mem _ hm)
    exact not_mem_new_uidls_of_known hk server
  · intro m hm
    have hmmails : m ∈ (fetch_new_mails p sd now server db).new_mails :=
      List.mem_of_mem_drop hm
    have hmf : m ∈ (new_server_mails server db).filter
        (fun m => should_forward sd (mail_date p m)) := hfr ▸ hmmails
    have hmnsm : m ∈ new_server_mails server db :=
      (List.filter_sublist _).subset hmf
    have hsf : should_forward sd (mail_date p m) = true :=
      (List.mem_filter.mp hmf).2
    rcases (mem_new_server_mails server db m).mp hmnsm with ⟨hms, hkdb⟩
    have hknotil :
        ¬ known (interrupted_ledger p f sd now server db k) m.uidl = true := by
      rw [hil, known_relay_db]
      rintro (htk | hsk)
      · have hdm : m.uidl ∈
            (((fetch_new_mails p sd now server db).new_mails.drop k)).map
              Mail.uidl :=
          List.mem_map_of_mem _ hm
        have hsplit := hmails_nd
        rw [← List.take_append_drop k
            ((fetch_new_mails p sd now server db).new_mails),
          List.map_append] at hsplit
        exact (List.disjoint_of_nodup_append hsplit) htk hdm
      · rw [known_skip_db] at hsk
        rcases hsk with ⟨m2, hm2, hsf2, hequ⟩ | hkdb2
        · have hmm : m2 = m :=
            mail_key_inj hnd ((mem_new_server_mails _ _ _).mp hm2).1 hms hequ
          rw [hmm, hsf] at hsf2
          cases hsf2
        · rw [hkdb] at hkdb2
          cases hkdb2
    have hkfalse : known (interrupted_ledger p f sd now server db k) m.uidl
        = false := by
      revert hknotil
      cases known (interrupted_ledger p f sd now server db k) m.uidl <;> simp
    rw [fetch_new_mails_eq]
    exact List.mem_filter.mpr
      ⟨(mem_new_server_mails _ _ _).mpr ⟨hms, hkfalse⟩, hsf⟩

/-- Witness for C1: a two-message batch interrupted after message one has
recorded the u1 outcome, and the re-run relays u2. -/
theorem C1_witness :
    (([u1mail, u2mail].map Mail.uidl).Nodup) ∧
    ((⟨ "u1" , 1000, "alice@example.jp" , "S1" , true⟩ : LedgerEntry) ∈
      interrupted_ledger (fun _ => none) (fun _ => true) none 1000
        [u1mail, u2mail] [] 1) ∧
    (u2mail ∈ (fetch_new_mails (fun _ => none) none 1001 [u1mail, u2mail]
      (interrupted_ledger (fun _ => none) (fun _ => true) none 1000
        [u1mail, u2mail] [] 1)).new_mails) := by
  have h := C1_outcome_recorded_before_next_submit (fun _ => none)
    (fun _ => true) none 1000 1001 [u1mail, u2mail] [] (by decide) 1
  refine ⟨by decide, ?_, ?_⟩
  · exact h.1 u1mail (by decide)
  · exact h.2.2 u2mail (by decide)

/-- Claim C6: after one reconciliation invocation, a second invocation
against an unchanged server uidl set finds an empty new set and relays
nothing: it returns the same ledger with zero forwarded and zero failed
messages. -/
theorem C6_second_reconcile_relays_nothing (p : String → Option Int)
    (f : Mail → Bool) (sd : Option Int) (now now2 : Int)
    (server server2 : List Mail) (db : Ledger)
    (hs : ∀ u, u ∈ server2.map Mail.uidl → u ∈ server.map Mail.uidl) :
    new_uidls server2 (reconcile p f sd now server db).db = [] ∧
    reconcile p f sd now2 server2 (reconcile p f sd now server db).db =
      ⟨(reconcile p f sd now server db).db, 0, 0⟩ := by
  have hall : ∀ m ∈ server2,
      known (reconcile p f sd now server db).db m.uidl = true := by
    intro m hm
    exact known_after_reconcile p f sd now server db m.uidl
      (Or.inl (hs _ (List.mem_map_of_mem _ hm)))
  have hnsm : new_server_mails server2 (reconcile p f sd now server db).db
      = [] := by
    apply List.filter_eq_nil_iff.mpr
    intro m hm
    simp [hall m hm]
  have hfetch : fetch_new_mails p sd now2 server2
      (reconcile p f sd now server db).db =
      ⟨[], (reconcile p f sd now server db).db, 0⟩ := by
    unfold fetch_new_mails
    rw [hnsm]
    rfl
  constructor
  · rw [new_uidls, hnsm]
    rfl
  · show relay_loop f now2
      (fetch_new_mails p sd now2 server2 (reconcile p f sd now server db).db).new_mails
      (fetch_new_mails p sd now2 server2 (reconcile p f sd now server db).db).db = _
    rw [hfetch]
    rfl

/-- Witness for C6: one poll over a one-message server leaves a second
poll over the same uidl set with an empty new set. -/
theorem C6_witness :
    new_uidls [u1mail]
      (reconcile (fun _ => none) (fun _ => true) none 1000 [u1mail] []).db
      = [] :=
  (C6_second_reconcile_relays_nothing (fun _ => none) (fun _ => true) none
    1000 1001 [u1mail] [u1mail] [] (fun _ h => h)).1

/-- Claim C5: a failed submit is recorded as a forward_success false row
for its uidl, and from then on that uidl stays in the known set: across
any sequence of later daemon cycles the failed row persists and the uidl
is never again selected for relay (at most one relay attempt per uidl, no
automatic retry). -/
theorem C5_failed_relay_recorded_never_retried (p : String → Option Int)
    (f : Mail → Bool) (sd : Option Int) (w now0 : Int)
    (mails : List Mail) (db : Ledger)
    (hnd : (mails.map Mail.uidl).Nodup)
    (hdb : (db.map LedgerEntry.uidl).Nodup)
    (m : Mail) (hm : m ∈ mails) (hfail : f m = false) :
    ((⟨m.uidl, now0, m.from_addr, m.subject, false⟩ : LedgerEntry) ∈
      (relay_loop f now0 mails db).db) ∧
    ∀ cycles : List CycleInput,
      (∃ e ∈ run_cycles p f sd w (relay_loop f now0 mails db).db cycles,
          e.uidl = m.uidl ∧ e.forward_success = false) ∧
      ∀ i (hi : i < cycles.length),
        m.uidl ∉ cycle_relayed p sd w
          (run_cycles p f sd w (relay_loop f now0 mails db).db (cycles.take i))
          (cycles.get ⟨i, hi⟩) := by
  have hmem : (⟨m.uidl, now0, m.from_addr, m.subject, false⟩ : LedgerEntry) ∈
      (relay_loop f now0 mails db).db := by
    rw [relay_loop_db_simple]
    have hment := @entry_mem_relay_db f now0 m mails db hm hnd
    rw [hfail] at hment
    exact hment
  have hnd1 : ((relay_loop f now0 mails db).db.map LedgerEntry.uidl).Nodup := by
    rw [relay_loop_db_simple]
    exact nodup_relay_db f now0 mails hdb
  refine ⟨hmem, ?_⟩
  intro cycles
  exact run_cycles_preserves_failed p f sd w m.uidl cycles _ hnd1
    ⟨_, hmem, rfl, rfl⟩

/-- Witness for C5: a failed relay of u1 is recorded as a failed row, and
a later cycle whose server still lists u1 does not select it for relay. -/
theorem C5_witness :
    ((⟨ "u1" , 1000, "alice@example.jp" , "S1" , false⟩ : LedgerEntry) ∈
      (relay_loop (fun _ => false) 1000 [u1mail] []).db) ∧
    "u1" ∉ cycle_relayed (fun _ => none) none 30
      (run_cycles (fun _ => none) (fun _ => false) none 30
        (relay_loop (fun _ => false) 1000 [u1mail] []).db
        (([⟨[u1mail], none, 2000⟩] : List CycleInput).take 0))
      (([⟨[u1mail], none, 2000⟩] : List CycleInput).get ⟨0, by decide⟩) := by
  have h := C5_failed_relay_recorded_never_retried (fun _ => none)
    (fun _ => false) none 30 1000 [u1mail] [] (by decide) (by decide)
    u1mail (by decide) rfl
  exact ⟨h.1, (h.2 [⟨[u1mail], none, 2000⟩]).2 0 (by decide)⟩

end MailForwarder
